import Mathlib

/-!
Shallow embedding of the training-target assignment core of the repository:

* `ProposalTargetCreator.__call__` from
  `time_axis_rcnn/model/time_segment_network/proposal_target_creater.py`
  (per-batch-item IoU matching, positive/negative sampling, label zeroing,
  regression-target encoding);
* the imbalanced multi-label loss/accuracy index selection embedded in
  `FasterRCNNTrainChain.__call__` from
  `AU_rcnn/links/model/faster_rcnn/faster_rcnn_train_chain.py`
  (the spec names it `select_training_indices`).

Machine floats are modelled as rationals; numpy arrays as lists; the global
random source as an explicit tape of naturals consumed by a without-replacement
sampler; numpy errors (ValueError from `argmax`/`max` over an empty axis, from
`np.random.choice` with `replace=False` when the requested size exceeds the
population or is negative) as the `Except` error constructors that the error
taxonomy of the spec names.
-/

namespace AuSpec


/-- Errors surfaced by the embedded code, named after the error taxonomy of the
spec. `invalidGroundTruth` models the numpy ValueError raised by
`iou.argmax(axis=1)` / `iou.max(axis=1)` when the ground-truth axis is empty;
`samplingExhaustion` models the ValueError raised by
`np.random.choice(..., replace=False)` when the requested size exceeds the
population; `negativeSampleSize` the ValueError for a negative size. -/
inductive NpError where
  | invalidGroundTruth
  | samplingExhaustion
  | negativeSampleSize
deriving DecidableEq

/-- Without-replacement sampling driven by an explicit random tape: at each
step the next tape entry (mod the current pool size) picks the element, which
is then removed from the pool. This is the embedding of
`np.random.choice(pool, size=k, replace=False)`: the tape stands for the
stream of the global pseudo-random source. -/
def sampleWR {α : Type} [DecidableEq α] : ℕ → List ℕ → List α → List α
  | 0, _, _ => []
  | _ + 1, _, [] => []
  | k + 1, tape, a :: rest =>
    let x := (a :: rest).getD (tape.headD 0 % (a :: rest).length) a
    x :: sampleWR k tape.tail ((a :: rest).erase x)

/-! ## Imbalanced multi-label loss/accuracy index selection

Embedding of lines 113–148 of
`AU_rcnn/links/model/faster_rcnn/faster_rcnn_train_chain.py`: predicted scores
and ground-truth labels are aligned 2-D (region × class) arrays, modelled as
nested lists of rationals and integers. -/

/-- Row-major enumeration of all (row, column) index pairs of a 2-D nested
list, the order produced by `np.nonzero` before the Python `set` conversion. -/
def allIndexPairs {α : Type} (m : List (List α)) : List (ℕ × ℕ) :=
  (List.range m.length).flatMap fun i =>
    (List.range (m.getD i []).length).map fun j => (i, j)

/-- Entry access `m[i, j]` for an integer label matrix. -/
def entryZ (m : List (List ℤ)) (p : ℕ × ℕ) : ℤ :=
  (m.getD p.1 []).getD p.2 0

/-- Entry access `m[i, j]` for a rational score matrix. -/
def entryQ (m : List (List ℚ)) (p : ℕ × ℕ) : ℚ :=
  (m.getD p.1 []).getD p.2 0

/-- Ground-truth-positive index pairs: `np.nonzero(cpu_gt_roi_label)` — every
entry of the label matrix whose value is nonzero (so the ignore value `-1`
counts as positive, exactly as the source does). -/
def gtPosList (label : List (List ℤ)) : List (ℕ × ℕ) :=
  (allIndexPairs label).filter fun p => decide (entryZ label p ≠ 0)

/-- Predicted-positive index pairs: `np.nonzero(roi_score > 0)`. -/
def predPosList (score : List (List ℚ)) : List (ℕ × ℕ) :=
  (allIndexPairs score).filter fun p => decide (0 < entryQ score p)

/-- Embedding of `len_gt_pos = len(gt_pos_index[0]) if len(gt_pos_index[0]) > 0 else 1`. -/
def lenGtPos (label : List (List ℤ)) : ℕ :=
  if 0 < (gtPosList label).length then (gtPosList label).length else 1

/-- Embedding of `neg_pick_count = self.neg_pos_ratio * len_gt_pos`. -/
def negPickCount (label : List (List ℤ)) (neg_pos_ratio : ℕ) : ℕ :=
  neg_pos_ratio * lenGtPos label

/-- Embedding of `false_positive_index = pred_pos_index_set - gt_pos_index_set`. -/
def falsePositiveList (score : List (List ℚ)) (label : List (List ℤ)) : List (ℕ × ℕ) :=
  (predPosList score).filter fun p => decide (p ∉ gtPosList label)

/-- The fill-in pool: entries with label 0 (`np.where(cpu_gt_roi_label == 0)`)
minus the already picked `gt_pos_index_lst` (ground-truth positives plus all
false positives at that point). -/
def negPoolList (score : List (List ℚ)) (label : List (List ℤ)) : List (ℕ × ℕ) :=
  ((allIndexPairs label).filter fun p => decide (entryZ label p = 0)).filter
    fun p => decide (p ∉ gtPosList label ++ falsePositiveList score label)

/-- Embedding of `union_gt = gt_pos_index_set ∪ pred_pos_index_set`, as a duplicate-free
list: the ground-truth positives followed by the predicted positives not
already among them (which is exactly the false-positive list). -/
def unionGtList (score : List (List ℚ)) (label : List (List ℤ)) : List (ℕ × ℕ) :=
  gtPosList label ++ falsePositiveList score label

/-- Embedding of the loss/accuracy index selection of
`FasterRCNNTrainChain.__call__` (lines 113–148): hard-negative mining over the
(region × class) label entries. Returns the loss index list and the accuracy
index list, or the numpy error raised by `np.random.choice` when the fill-in
pool is smaller than the remainder to sample. -/
def selectTrainingIndices (score : List (List ℚ)) (label : List (List ℤ))
    (neg_pos_ratio : ℕ) (tape : List ℕ) :
    Except NpError (List (ℕ × ℕ) × List (ℕ × ℕ)) :=
  let gtPos := gtPosList label
  let fp := falsePositiveList score label
  let npick := negPickCount label neg_pos_ratio
  let unionGt := unionGtList score label
  let accIdx := if unionGt.isEmpty then gtPos else unionGt
  if npick ≤ fp.length then
    Except.ok (gtPos ++ sampleWR npick tape fp, accIdx)
  else
    let rest := npick - fp.length
    let pool := negPoolList score label
    if pool.length < rest then Except.error NpError.samplingExhaustion
    else Except.ok (gtPos ++ (fp ++ sampleWR rest tape pool), accIdx)

/-! ## Proposal target assigner

Embedding of `ProposalTargetCreator.__call__` from
`time_axis_rcnn/model/time_segment_network/proposal_target_creater.py`. -/

/-- A temporal segment `(x_min, x_max)`. -/
abbrev Seg := ℚ × ℚ

/-- Modelled from the spec: the helper `segments_iou` lives in
`time_axis_rcnn/model/time_segment_network/util/bbox/bbox_util.py`, which is
not among the sources; per the data model and testable properties of the spec, the
IoU of two 1-D segments is intersection length over union length, 0 when they
do not overlap and 1 when identical. -/
def segIoU (a b : Seg) : ℚ :=
  let inter := max 0 (min a.2 b.2 - max a.1 b.1)
  let uni := (a.2 - a.1) + (b.2 - b.1) - inter
  if uni = 0 then 0 else inter / uni

/-- Modelled from the spec: the helper `encode_segment_target` of
`bbox_util.py` is not among the sources; per the spec it is the offset/scale
transform between a sampled segment and its assigned ground-truth segment. -/
def encodeSegmentTarget (roi gt : Seg) : Seg :=
  let w := roi.2 - roi.1
  let cw := gt.2 - gt.1
  (if w = 0 then 0 else ((gt.1 + cw / 2) - (roi.1 + w / 2)) / w,
   if w = 0 then 0 else cw / w)

/-- Round half to even, the semantics of `np.round` on a scalar. -/
def npRound (q : ℚ) : ℤ :=
  if q - ⌊q⌋ < 1 / 2 then ⌊q⌋
  else if 1 / 2 < q - ⌊q⌋ then ⌊q⌋ + 1
  else if ⌊q⌋ % 2 = 0 then ⌊q⌋ else ⌊q⌋ + 1

/-- Helper for `npArgmax`: current position, best index and best value. -/
def argmaxAux : List ℚ → ℕ → ℕ → ℚ → ℕ
  | [], _, bi, _ => bi
  | x :: xs, i, bi, bv =>
    if bv < x then argmaxAux xs (i + 1) i x else argmaxAux xs (i + 1) bi bv

/-- First index of the maximum of a non-empty list, the semantics of
`np.argmax` along a non-empty axis (the empty axis raises, handled by the
caller). -/
def npArgmax : List ℚ → ℕ
  | [] => 0
  | x :: xs => argmaxAux xs 1 0 x

/-- Maximum of a non-empty list, the semantics of `np.max` along a non-empty
axis. -/
def npMax : List ℚ → ℚ
  | [] => 0
  | x :: xs => xs.foldl max x

/-- Embedding of `np.random.choice(pool, size=size, replace=False)` with an
integer size: a negative size and a size exceeding the population both raise
ValueError. -/
def npChoice {α : Type} [DecidableEq α] (pool : List α) (size : ℤ) (tape : List ℕ) :
    Except NpError (List α) :=
  if size < 0 then Except.error NpError.negativeSampleSize
  else if (pool.length : ℤ) < size then Except.error NpError.samplingExhaustion
  else Except.ok (sampleWR size.toNat tape pool)

/-- Configuration of the proposal target assigner, mirroring the constructor
arguments of `ProposalTargetCreator` with its defaults. -/
structure ProposalTargetCreator where
  n_sample : ℕ
  pos_ratio : ℚ
  pos_iou_thresh : ℚ
  neg_iou_thresh_hi : ℚ
  neg_iou_thresh_lo : ℚ
deriving DecidableEq

/-- The constructor defaults `n_sample=128, pos_ratio=0.25, pos_iou_thresh=0.5,
neg_iou_thresh_hi=0.5, neg_iou_thresh_lo=0.0`. -/
def defaultCreator : ProposalTargetCreator :=
  ⟨128, 1 / 4, 1 / 2, 1 / 2, 0⟩

/-- Embedding of `pos_roi_per_timeline = np.round(self.n_sample * self.pos_ratio)`. -/
def posDesired (cfg : ProposalTargetCreator) : ℤ :=
  npRound ((cfg.n_sample : ℚ) * cfg.pos_ratio)

/-- Embedding of `rois[np.where(roi_indices == b_id)]`: the candidate regions whose batch
index tag equals `b`, in input order. -/
def roisOfBatch (rois : List Seg) (roiIndices : List ℕ) (b : ℕ) : List Seg :=
  (rois.zip roiIndices).filterMap fun p => if p.2 = b then some p.1 else none

/-- Embedding of `all_rois = np.concatenate((all_rois, gt_seg))`: the candidate pool of one
batch item is its tagged candidates followed by its first `segNum` ground-truth
segments. -/
def allRoisOf (rois : List Seg) (roiIndices : List ℕ) (b : ℕ)
    (gtRow : List Seg) (segNum : ℕ) : List Seg :=
  roisOfBatch rois roiIndices b ++ gtRow.take segNum

/-- Embedding of `iou.max(axis=1)` for one candidate row. -/
def maxIouOf (r : Seg) (gtSeg : List Seg) : ℚ :=
  npMax (gtSeg.map (segIoU r))

/-- Embedding of `iou.argmax(axis=1)` for one candidate row. -/
def argmaxIouOf (r : Seg) (gtSeg : List Seg) : ℕ :=
  npArgmax (gtSeg.map (segIoU r))

/-- The `max_iou` vector over the candidate pool. -/
def maxIouList (pool gtSeg : List Seg) : List ℚ :=
  pool.map fun r => maxIouOf r gtSeg

/-- The `gt_assignment` vector over the candidate pool. -/
def gtAssignmentList (pool gtSeg : List Seg) : List ℕ :=
  pool.map fun r => argmaxIouOf r gtSeg

/-- Embedding of `pos_index = np.where(max_iou >= self.pos_iou_thresh)[0]`, ascending. -/
def posIndexList (cfg : ProposalTargetCreator) (pool gtSeg : List Seg) : List ℕ :=
  (List.range pool.length).filter fun i =>
    decide (cfg.pos_iou_thresh ≤ (maxIouList pool gtSeg).getD i 0)

/-- Embedding of `neg_index = np.where((max_iou < hi) & (max_iou >= lo))[0]`, ascending. -/
def negIndexList (cfg : ProposalTargetCreator) (pool gtSeg : List Seg) : List ℕ :=
  (List.range pool.length).filter fun i =>
    decide ((maxIouList pool gtSeg).getD i 0 < cfg.neg_iou_thresh_hi ∧
      cfg.neg_iou_thresh_lo ≤ (maxIouList pool gtSeg).getD i 0)

/-- Python slice assignment `a[i:] = 0` on an integer vector, including the
negative-index convention. -/
def pyZeroFrom (l : List ℤ) (i : ℤ) : List ℤ :=
  let s : ℕ := if i < 0 then l.length - (-i).toNat else min i.toNat l.length
  l.take s ++ List.replicate (l.length - s) 0

/-- The number of sampled positives of one batch item,
`int(min(pos_roi_per_timeline, pos_index.size))`. -/
def posBoundary (cfg : ProposalTargetCreator) (rois : List Seg)
    (roiIndices : List ℕ) (b : ℕ) (gtRow : List Seg) (segNum : ℕ) : ℕ :=
  (min (posDesired cfg)
    ((posIndexList cfg (allRoisOf rois roiIndices b gtRow segNum)
      (gtRow.take segNum)).length : ℤ)).toNat

/-- The number of available positive candidates of one batch item. -/
def posAvail (cfg : ProposalTargetCreator) (rois : List Seg)
    (roiIndices : List ℕ) (b : ℕ) (gtRow : List Seg) (segNum : ℕ) : ℕ :=
  (posIndexList cfg (allRoisOf rois roiIndices b gtRow segNum) (gtRow.take segNum)).length

/-- The number of available negative candidates of one batch item. -/
def negAvail (cfg : ProposalTargetCreator) (rois : List Seg)
    (roiIndices : List ℕ) (b : ℕ) (gtRow : List Seg) (segNum : ℕ) : ℕ :=
  (negIndexList cfg (allRoisOf rois roiIndices b gtRow segNum) (gtRow.take segNum)).length

/-- The four per-sample output arrays of one batch item. -/
structure SampleResult where
  rois : List Seg
  roiIndices : List ℕ
  locs : List Seg
  labels : List ℤ
deriving DecidableEq

/-- The body of the per-batch-item loop of `ProposalTargetCreator.__call__`
(lines 107–164): slice the candidates and valid ground truth of this item, build
the augmented pool, match by IoU, sample positives and negatives, zero the
labels of the negative tail, gather the sampled segments and encode the
normalized regression targets. An empty valid ground-truth set raises
(`iou.argmax(axis=1)` over zero columns), and `np.random.choice` raises on a
negative or over-large sample size. -/
def sampleOne (cfg : ProposalTargetCreator) (rois : List Seg) (roiIndices : List ℕ)
    (b : ℕ) (gtRow : List Seg) (labelRow : List ℤ) (segNum : ℕ)
    (mean std : Seg) (posTape negTape : List ℕ) : Except NpError SampleResult :=
  let gtSeg := gtRow.take segNum
  let label := labelRow.take segNum
  let pool := allRoisOf rois roiIndices b gtRow segNum
  if gtSeg.isEmpty then Except.error NpError.invalidGroundTruth
  else
    let posIdx := posIndexList cfg pool gtSeg
    let posCnt : ℤ := min (posDesired cfg) (posIdx.length : ℤ)
    (if 0 < posIdx.length then npChoice posIdx posCnt posTape else Except.ok posIdx).bind
      fun posSel =>
        let negIdx := negIndexList cfg pool gtSeg
        let negCnt : ℤ := min ((cfg.n_sample : ℤ) - posCnt) (negIdx.length : ℤ)
        (if 0 < negIdx.length then npChoice negIdx negCnt negTape else Except.ok negIdx).bind
          fun negSel =>
            let keep := posSel ++ negSel
            let gtAssign := gtAssignmentList pool gtSeg
            let allLabels : List ℤ := gtAssign.map fun g => label.getD g 0 + 1
            let outLabels := pyZeroFrom (keep.map fun i => allLabels.getD i 0) posCnt
            let locs := keep.map fun i =>
              let raw := encodeSegmentTarget (pool.getD i (0, 0))
                (gtSeg.getD (gtAssign.getD i 0) (0, 0))
              ((raw.1 - mean.1) / std.1, (raw.2 - mean.2) / std.2)
            Except.ok ⟨keep.map fun i => pool.getD i (0, 0), keep.map fun _ => b,
              locs, outLabels⟩

/-- Sequencing of the per-item loop in the `Except` monad: the first raising
item aborts the whole call. -/
def exceptMapList {α β : Type} (f : α → Except NpError β) : List α → Except NpError (List β)
  | [] => Except.ok []
  | a :: as =>
    match f a with
    | Except.error e => Except.error e
    | Except.ok b =>
      match exceptMapList f as with
      | Except.error e => Except.error e
      | Except.ok bs => Except.ok (b :: bs)

/-- Embedding of the whole `ProposalTargetCreator.__call__`: run the loop body
over every batch index and concatenate the four per-item output arrays along
the sample axis. `batchSegInfo` pairs the AU group index (unused) with the
valid ground-truth count of each batch item; `tapes` carries the per-item
random streams of the positive and negative `np.random.choice` calls. -/
def proposalTargetCall (cfg : ProposalTargetCreator) (rois : List Seg)
    (roiIndices : List ℕ) (gtSegments : List (List Seg)) (labels : List (List ℤ))
    (batchSegInfo : List (ℕ × ℕ)) (mean std : Seg)
    (tapes : List (List ℕ × List ℕ)) :
    Except NpError (List Seg × List ℕ × List Seg × List ℤ) :=
  match exceptMapList (fun b =>
      sampleOne cfg rois roiIndices b (gtSegments.getD b []) (labels.getD b [])
        (batchSegInfo.getD b (0, 0)).2 mean std
        (tapes.getD b ([], [])).1 (tapes.getD b ([], [])).2)
      (List.range gtSegments.length) with
  | Except.error e => Except.error e
  | Except.ok rs =>
    Except.ok ((rs.map SampleResult.rois).flatten, (rs.map SampleResult.roiIndices).flatten,
      (rs.map SampleResult.locs).flatten, (rs.map SampleResult.labels).flatten)

/-- The value `sampleOne` returns when the valid ground-truth set is non-empty
and the configured counts are in range (proved equal in
`sampleOne_eq_ok`). -/
def sampleResultOf (cfg : ProposalTargetCreator) (rois : List Seg)
    (roiIndices : List ℕ) (b : ℕ) (gtRow : List Seg) (labelRow : List ℤ)
    (segNum : ℕ) (mean std : Seg) (posTape negTape : List ℕ) : SampleResult :=
  let gtSeg := gtRow.take segNum
  let label := labelRow.take segNum
  let pool := allRoisOf rois roiIndices b gtRow segNum
  let posIdx := posIndexList cfg pool gtSeg
  let posCnt : ℤ := min (posDesired cfg) (posIdx.length : ℤ)
  let posSel := sampleWR posCnt.toNat posTape posIdx
  let negIdx := negIndexList cfg pool gtSeg
  let negCnt : ℤ := min ((cfg.n_sample : ℤ) - posCnt) (negIdx.length : ℤ)
  let negSel := sampleWR negCnt.toNat negTape negIdx
  let keep := posSel ++ negSel
  let gtAssign := gtAssignmentList pool gtSeg
  let allLabels : List ℤ := gtAssign.map fun g => label.getD g 0 + 1
  ⟨keep.map fun i => pool.getD i (0, 0), keep.map fun _ => b,
   keep.map fun i =>
     let raw := encodeSegmentTarget (pool.getD i (0, 0))
       (gtSeg.getD (gtAssign.getD i 0) (0, 0))
     ((raw.1 - mean.1) / std.1, (raw.2 - mean.2) / std.2),
   pyZeroFrom (keep.map fun i => allLabels.getD i 0) posCnt⟩

/-- A small configuration `n_sample=2, pos_ratio=0.5` with the default
thresholds, used to exercise the assigner on concrete inputs. -/
def smallCreator : ProposalTargetCreator :=
  ⟨2, 1 / 2, 1 / 2, 1 / 2, 0⟩

theorem getD_mem_of_default_mem {α : Type} (l : List α) (n : ℕ) (d : α) (hd : d ∈ l) :
    l.getD n d ∈ l := by
  rw [List.getD_eq_getElem?_getD]
  cases h : l[n]? with
  | none => simpa using hd
  | some v => simpa using List.getElem?_mem h

theorem sampleWR_mem {α : Type} [DecidableEq α] :
    ∀ (k : ℕ) (tape : List ℕ) (pool : List α), ∀ x ∈ sampleWR k tape pool, x ∈ pool := by
  intro k
  induction k with
  | zero => intro tape pool x hx; simp [sampleWR] at hx
  | succ k ih =>
    intro tape pool x hx
    cases pool with
    | nil => simp [sampleWR] at hx
    | cons a rest =>
      simp only [sampleWR, List.mem_cons] at hx
      rcases hx with hx | hx
      · exact hx ▸ getD_mem_of_default_mem _ _ _ (List.mem_cons_self a rest)
      · exact List.erase_subset _ _ (ih tape.tail _ x hx)

theorem sampleWR_length {α : Type} [DecidableEq α] :
    ∀ (k : ℕ) (tape : List ℕ) (pool : List α), k ≤ pool.length →
      (sampleWR k tape pool).length = k := by
  intro k
  induction k with
  | zero => intro tape pool _; simp [sampleWR]
  | succ k ih =>
    intro tape pool hk
    cases pool with
    | nil => simp at hk
    | cons a rest =>
      simp only [sampleWR, List.length_cons]
      rw [ih tape.tail _ (by
        rw [List.length_erase_of_mem
          (getD_mem_of_default_mem _ _ _ (List.mem_cons_self a rest))]
        simpa using Nat.le_of_succ_le_succ hk)]

theorem sampleWR_nodup {α : Type} [DecidableEq α] :
    ∀ (k : ℕ) (tape : List ℕ) (pool : List α), pool.Nodup →
      (sampleWR k tape pool).Nodup := by
  intro k
  induction k with
  | zero => intro tape pool _; simp [sampleWR]
  | succ k ih =>
    intro tape pool hnd
    cases pool with
    | nil => simp [sampleWR]
    | cons a rest =>
      simp only [sampleWR, List.nodup_cons]
      constructor
      · intro hmem
        have hsub := sampleWR_mem k tape.tail _ _ hmem
        exact ((List.Nodup.mem_erase_iff hnd).1 hsub).1 rfl
      · exact ih tape.tail _ (List.Nodup.erase _ hnd)

theorem allIndexPairs_mem {α : Type} (m : List (List α)) (p : ℕ × ℕ) :
    p ∈ allIndexPairs m ↔ p.1 < m.length ∧ p.2 < (m.getD p.1 []).length := by
  cases p with
  | mk i j =>
    simp only [allIndexPairs, List.mem_flatMap, List.mem_map, List.mem_range]
    constructor
    · rintro ⟨i', hi', j', hj', h⟩
      obtain ⟨rfl, rfl⟩ := Prod.mk.injEq .. ▸ h
      exact ⟨hi', hj'⟩
    · rintro ⟨hi, hj⟩
      exact ⟨i, hi, j, hj, rfl⟩

theorem allIndexPairs_nodup {α : Type} (m : List (List α)) :
    (allIndexPairs m).Nodup := by
  rw [allIndexPairs, List.nodup_flatMap]
  constructor
  · intro i _
    exact (List.nodup_range _).map (fun a b h => (Prod.mk.injEq .. ▸ h).2)
  · have h : List.Pairwise (fun a b : ℕ => a ≠ b) (List.range m.length) :=
      List.nodup_range m.length
    exact h.imp (by
      intro a b hab
      intro x hxa hxb
      simp only [Function.onFun, List.mem_map] at hxa hxb
      obtain ⟨ja, _, rfl⟩ := hxa
      obtain ⟨jb, _, hb⟩ := hxb
      exact hab (Prod.mk.injEq .. ▸ hb.symm).1)

theorem gtPosList_nodup (label : List (List ℤ)) : (gtPosList label).Nodup :=
  (allIndexPairs_nodup label).filter _

theorem predPosList_nodup (score : List (List ℚ)) : (predPosList score).Nodup :=
  (allIndexPairs_nodup score).filter _

theorem falsePositiveList_nodup (score : List (List ℚ)) (label : List (List ℤ)) :
    (falsePositiveList score label).Nodup :=
  (predPosList_nodup score).filter _

theorem negPoolList_nodup (score : List (List ℚ)) (label : List (List ℤ)) :
    (negPoolList score label).Nodup :=
  (((allIndexPairs_nodup label).filter _).filter _)

theorem falsePositiveList_spec (score : List (List ℚ)) (label : List (List ℤ))
    (p : ℕ × ℕ) :
    p ∈ falsePositiveList score label ↔ p ∈ predPosList score ∧ p ∉ gtPosList label := by
  simp [falsePositiveList, List.mem_filter]

theorem negPoolList_spec (score : List (List ℚ)) (label : List (List ℤ)) (p : ℕ × ℕ) :
    p ∈ negPoolList score label ↔
      (p ∈ allIndexPairs label ∧ entryZ label p = 0) ∧
        ¬(p ∈ gtPosList label ∨ p ∈ falsePositiveList score label) := by
  simp only [negPoolList, List.mem_filter, List.mem_append, decide_eq_true_eq, not_or]

/-- Branch-level description of `selectTrainingIndices`, obtained by reducing
its local bindings. -/
theorem selectTrainingIndices_eq (score : List (List ℚ)) (label : List (List ℤ))
    (neg_pos_ratio : ℕ) (tape : List ℕ) :
    selectTrainingIndices score label neg_pos_ratio tape =
      if negPickCount label neg_pos_ratio ≤ (falsePositiveList score label).length then
        Except.ok
          (gtPosList label ++
            sampleWR (negPickCount label neg_pos_ratio) tape (falsePositiveList score label),
           if (unionGtList score label).isEmpty then gtPosList label
           else unionGtList score label)
      else if (negPoolList score label).length <
          negPickCount label neg_pos_ratio - (falsePositiveList score label).length then
        Except.error NpError.samplingExhaustion
      else
        Except.ok
          (gtPosList label ++
            (falsePositiveList score label ++
              sampleWR (negPickCount label neg_pos_ratio - (falsePositiveList score label).length)
                tape (negPoolList score label)),
           if (unionGtList score label).isEmpty then gtPosList label
           else unionGtList score label) := rfl

theorem unionGtList_mem (score : List (List ℚ)) (label : List (List ℤ)) (p : ℕ × ℕ) :
    p ∈ unionGtList score label ↔ p ∈ gtPosList label ∨ p ∈ predPosList score := by
  simp only [unionGtList, List.mem_append, falsePositiveList_spec]
  tauto

/-- C4: the target negative pick count equals `neg_pos_ratio × max(1, number of
ground-truth positives)`, where the ground-truth-positive set is exactly the
set of nonzero entries of the label matrix (an entry valued `-1` counts as
positive), and an all-zero label matrix with ratio 3 yields target count 3. -/
theorem C4_target_negative_count (label : List (List ℤ)) (neg_pos_ratio : ℕ) :
    negPickCount label neg_pos_ratio = neg_pos_ratio * max 1 (gtPosList label).length
    ∧ (∀ i j, (i, j) ∈ gtPosList label ↔
        i < label.length ∧ j < (label.getD i []).length ∧ (label.getD i []).getD j 0 ≠ 0)
    ∧ (0, 0) ∈ gtPosList [[-1]]
    ∧ negPickCount [[0, 0, 0], [0, 0, 0]] 3 = 3 := by
  refine ⟨?_, ?_, by decide, by decide⟩
  · rw [negPickCount, lenGtPos]
    rcases Nat.eq_zero_or_pos (gtPosList label).length with h | h
    · rw [h]; simp
    · rw [if_pos h, Nat.max_eq_right h]
  · intro i j
    rw [gtPosList, List.mem_filter, allIndexPairs_mem, decide_eq_true_eq, entryZ]
    tauto

/-- C5: when the false-positive set is at least the target negative count,
exactly that many entries are sampled from it without replacement; otherwise
all false positives are taken and the remainder is sampled without replacement
from the label-zero pool not already selected, and the loss index list is the
ground-truth positives followed by the sampled negatives. -/
theorem C5_negative_sampling (score : List (List ℚ)) (label : List (List ℤ))
    (neg_pos_ratio : ℕ) (tape : List ℕ) (loss acc : List (ℕ × ℕ))
    (h : selectTrainingIndices score label neg_pos_ratio tape = Except.ok (loss, acc)) :
    (negPickCount label neg_pos_ratio ≤ (falsePositiveList score label).length →
      ∃ negs, loss = gtPosList label ++ negs ∧
        negs.length = negPickCount label neg_pos_ratio ∧
        (∀ x ∈ negs, x ∈ falsePositiveList score label) ∧ negs.Nodup)
    ∧ ((falsePositiveList score label).length < negPickCount label neg_pos_ratio →
      ∃ fill, loss = gtPosList label ++ (falsePositiveList score label ++ fill) ∧
        fill.length = negPickCount label neg_pos_ratio - (falsePositiveList score label).length ∧
        (∀ x ∈ fill, x ∈ negPoolList score label) ∧ fill.Nodup) := by
  rw [selectTrainingIndices_eq] at h
  by_cases hc : negPickCount label neg_pos_ratio ≤ (falsePositiveList score label).length
  · rw [if_pos hc] at h
    simp only [Except.ok.injEq, Prod.mk.injEq] at h
    obtain ⟨hl, -⟩ := h
    subst hl
    refine ⟨fun _ => ?_, fun hlt => absurd hc (by omega)⟩
    exact ⟨_, rfl, sampleWR_length _ tape _ hc,
      sampleWR_mem _ tape _, sampleWR_nodup _ tape _ (falsePositiveList_nodup score label)⟩
  · rw [if_neg hc] at h
    by_cases hp : (negPoolList score label).length <
        negPickCount label neg_pos_ratio - (falsePositiveList score label).length
    · rw [if_pos hp] at h
      exact absurd h (by simp)
    · rw [if_neg hp] at h
      simp only [Except.ok.injEq, Prod.mk.injEq] at h
      obtain ⟨hl, -⟩ := h
      subst hl
      refine ⟨fun hle => absurd hle hc, fun _ => ?_⟩
      exact ⟨_, rfl, sampleWR_length _ tape _ (by omega),
        sampleWR_mem _ tape _, sampleWR_nodup _ tape _ (negPoolList_nodup score label)⟩

/-- C6: when the fill-in remainder exceeds the size of the label-zero pool not
already selected, the selection fails with the sampling-exhaustion error
instead of returning an under-sampled loss index set. -/
theorem C6_sampling_exhaustion (score : List (List ℚ)) (label : List (List ℤ))
    (neg_pos_ratio : ℕ) (tape : List ℕ)
    (h1 : (falsePositiveList score label).length < negPickCount label neg_pos_ratio)
    (h2 : (negPoolList score label).length <
      negPickCount label neg_pos_ratio - (falsePositiveList score label).length) :
    selectTrainingIndices score label neg_pos_ratio tape =
      Except.error NpError.samplingExhaustion := by
  rw [selectTrainingIndices_eq, if_neg (by omega), if_pos h2]

/-- C9: the accuracy index list has exactly the members of the union of the
ground-truth-positive and predicted-positive sets (when the union is empty the
code falls back to re-enumerating the nonzero label entries, which is then
empty as well), so it is a superset of the ground-truth positives whenever any
exist. -/
theorem C9_accuracy_indices (score : List (List ℚ)) (label : List (List ℤ))
    (neg_pos_ratio : ℕ) (tape : List ℕ) (loss acc : List (ℕ × ℕ))
    (h : selectTrainingIndices score label neg_pos_ratio tape = Except.ok (loss, acc)) :
    (∀ p, p ∈ acc ↔ p ∈ gtPosList label ∨ p ∈ predPosList score)
    ∧ (gtPosList label ≠ [] → ∀ p ∈ gtPosList label, p ∈ acc) := by
  have hacc : acc = if (unionGtList score label).isEmpty then gtPosList label
      else unionGtList score label := by
    rw [selectTrainingIndices_eq] at h
    by_cases hc : negPickCount label neg_pos_ratio ≤ (falsePositiveList score label).length
    · rw [if_pos hc] at h
      simp only [Except.ok.injEq, Prod.mk.injEq] at h
      exact h.2.symm
    · rw [if_neg hc] at h
      by_cases hp : (negPoolList score label).length <
          negPickCount label neg_pos_ratio - (falsePositiveList score label).length
      · rw [if_pos hp] at h
        exact absurd h (by simp)
      · rw [if_neg hp] at h
        simp only [Except.ok.injEq, Prod.mk.injEq] at h
        exact h.2.symm
  have hmem : ∀ p, p ∈ acc ↔ p ∈ gtPosList label ∨ p ∈ predPosList score := by
    intro p
    rw [hacc]
    split_ifs with he
    · rw [List.isEmpty_iff] at he
      have hgt : gtPosList label = [] := (List.append_eq_nil.1 he).1
      constructor
      · intro hp
        rw [hgt] at hp
        simp at hp
      · intro hp
        have hu : p ∈ unionGtList score label := (unionGtList_mem score label p).2 hp
        rw [he] at hu
        simp at hu
    · exact unionGtList_mem score label p
  exact ⟨hmem, fun _ p hp => (hmem p).2 (Or.inl hp)⟩

/-- C10: the loss index list — ground-truth positives, chosen false positives,
and label-zero fill-in entries — has no duplicate (row, column) position: the
three parts are pairwise disjoint and duplicate-free. -/
theorem C10_loss_indices_nodup (score : List (List ℚ)) (label : List (List ℤ))
    (neg_pos_ratio : ℕ) (tape : List ℕ) (loss acc : List (ℕ × ℕ))
    (h : selectTrainingIndices score label neg_pos_ratio tape = Except.ok (loss, acc)) :
    loss.Nodup := by
  rw [selectTrainingIndices_eq] at h
  by_cases hc : negPickCount label neg_pos_ratio ≤ (falsePositiveList score label).length
  · rw [if_pos hc] at h
    simp only [Except.ok.injEq, Prod.mk.injEq] at h
    obtain ⟨hl, -⟩ := h
    subst hl
    rw [List.nodup_append]
    refine ⟨gtPosList_nodup label,
      sampleWR_nodup _ tape _ (falsePositiveList_nodup score label), ?_⟩
    intro x hx hx'
    have hfp := sampleWR_mem _ tape _ x hx'
    exact ((falsePositiveList_spec score label x).1 hfp).2 hx
  · rw [if_neg hc] at h
    by_cases hp : (negPoolList score label).length <
        negPickCount label neg_pos_ratio - (falsePositiveList score label).length
    · rw [if_pos hp] at h
      exact absurd h (by simp)
    · rw [if_neg hp] at h
      simp only [Except.ok.injEq, Prod.mk.injEq] at h
      obtain ⟨hl, -⟩ := h
      subst hl
      rw [List.nodup_append]
      refine ⟨gtPosList_nodup label, ?_, ?_⟩
      · rw [List.nodup_append]
        refine ⟨falsePositiveList_nodup score label,
          sampleWR_nodup _ tape _ (negPoolList_nodup score label), ?_⟩
        intro x hx hx'
        have hpool := sampleWR_mem _ tape _ x hx'
        exact ((negPoolList_spec score label x).1 hpool).2 (Or.inr hx)
      · intro x hx hx'
        rcases List.mem_append.1 hx' with hfp | hfill
        · exact ((falsePositiveList_spec score label x).1 hfp).2 hx
        · have hpool := sampleWR_mem _ tape _ x hfill
          exact ((negPoolList_spec score label x).1 hpool).2 (Or.inl hx)

theorem C5_negative_sampling_witness :
    ∃ negs, ([((0:ℕ), (0:ℕ)), (0, 1)] : List (ℕ × ℕ)) = gtPosList [[1, 0]] ++ negs ∧
      negs.length = negPickCount [[1, 0]] 1 ∧
      (∀ x ∈ negs, x ∈ falsePositiveList [[(1:ℚ), 1]] [[1, 0]]) ∧ negs.Nodup :=
  (C5_negative_sampling [[(1:ℚ), 1]] [[1, 0]] 1 [0] [(0, 0), (0, 1)] [(0, 0), (0, 1)]
    (by rfl)).1 (by decide)

theorem C6_sampling_exhaustion_witness :
    selectTrainingIndices [[(0:ℚ)]] [[1]] 3 [] = Except.error NpError.samplingExhaustion :=
  C6_sampling_exhaustion [[(0:ℚ)]] [[1]] 3 [] (by decide) (by decide)

theorem C9_accuracy_indices_witness :
    ((0, 1) ∈ ([((0:ℕ), (0:ℕ)), (0, 1)] : List (ℕ × ℕ))) ↔
      ((0, 1) ∈ gtPosList [[1, 0]] ∨ (0, 1) ∈ predPosList [[(1:ℚ), 1]]) :=
  (C9_accuracy_indices [[(1:ℚ), 1]] [[1, 0]] 1 [0] [(0, 0), (0, 1)] [(0, 0), (0, 1)]
    (by rfl)).1 (0, 1)

theorem C10_loss_indices_nodup_witness :
    ([((0:ℕ), (0:ℕ)), (0, 1)] : List (ℕ × ℕ)).Nodup :=
  C10_loss_indices_nodup [[(1:ℚ), 1]] [[1, 0]] 1 [0] [(0, 0), (0, 1)] [(0, 0), (0, 1)]
    (by rfl)

theorem sampleWR_nil {α : Type} [DecidableEq α] (k : ℕ) (tape : List ℕ) :
    sampleWR k tape ([] : List α) = [] := by
  cases k <;> rfl

theorem exceptBind_ok {α β : Type} (a : α) (f : α → Except NpError β) :
    (Except.ok a : Except NpError α).bind f = f a := rfl

theorem selGuard_eq (idx : List ℕ) (cnt : ℤ) (tape : List ℕ)
    (h0 : 0 ≤ cnt) (h1 : cnt ≤ (idx.length : ℤ)) :
    (if 0 < idx.length then npChoice idx cnt tape else Except.ok idx) =
      Except.ok (sampleWR cnt.toNat tape idx) := by
  split_ifs with hi
  · rw [npChoice, if_neg (by omega), if_neg (by omega)]
  · have hnil : idx = [] := List.eq_nil_of_length_eq_zero (by omega)
    subst hnil
    rw [sampleWR_nil]

theorem pyZeroFrom_length (l : List ℤ) (i : ℤ) : (pyZeroFrom l i).length = l.length := by
  rw [pyZeroFrom]
  split_ifs with hneg
  · rw [List.length_append, List.length_take, List.length_replicate]
    omega
  · rw [List.length_append, List.length_take, List.length_replicate]
    omega

theorem pyZeroFrom_drop (l : List ℤ) (i : ℤ) (h : 0 ≤ i) :
    ∀ x ∈ (pyZeroFrom l i).drop i.toNat, x = 0 := by
  intro x hx
  rw [pyZeroFrom, if_neg (by omega)] at hx
  rw [List.drop_append_eq_append_drop] at hx
  rw [List.drop_eq_nil_of_le (by rw [List.length_take]; omega)] at hx
  rw [List.nil_append] at hx
  exact List.eq_of_mem_replicate (List.mem_of_mem_drop hx)

theorem getD_map_lt {α β : Type} (f : α → β) (l : List α) (i : ℕ) (d : α) (e : β)
    (hi : i < l.length) : (l.map f).getD i e = f (l.getD i d) := by
  rw [List.getD_eq_getElem?_getD, List.getD_eq_getElem?_getD, List.getElem?_map,
    List.getElem?_eq_getElem hi]
  simp

theorem sampleOne_isEmpty_err (cfg : ProposalTargetCreator) (rois : List Seg)
    (roiIndices : List ℕ) (b : ℕ) (gtRow : List Seg) (labelRow : List ℤ)
    (segNum : ℕ) (mean std : Seg) (posTape negTape : List ℕ)
    (hE : (gtRow.take segNum).isEmpty = true) :
    sampleOne cfg rois roiIndices b gtRow labelRow segNum mean std posTape negTape =
      Except.error NpError.invalidGroundTruth := by
  simp [sampleOne, hE]

theorem sampleOne_eq_ok (cfg : ProposalTargetCreator) (rois : List Seg)
    (roiIndices : List ℕ) (b : ℕ) (gtRow : List Seg) (labelRow : List ℤ)
    (segNum : ℕ) (mean std : Seg) (posTape negTape : List ℕ)
    (hlo : 0 ≤ posDesired cfg) (hhi : posDesired cfg ≤ (cfg.n_sample : ℤ))
    (hne : (gtRow.take segNum).isEmpty = false) :
    sampleOne cfg rois roiIndices b gtRow labelRow segNum mean std posTape negTape =
      Except.ok (sampleResultOf cfg rois roiIndices b gtRow labelRow segNum mean std
        posTape negTape) := by
  simp only [sampleOne, hne, Bool.false_eq_true, if_false]
  rw [selGuard_eq _ _ _ (by omega) (by omega)]
  simp only [exceptBind_ok]
  rw [selGuard_eq _ _ _ (by omega) (by omega)]
  simp only [exceptBind_ok]
  rfl

theorem sampleOne_error_is_invalid (cfg : ProposalTargetCreator) (rois : List Seg)
    (roiIndices : List ℕ) (b : ℕ) (gtRow : List Seg) (labelRow : List ℤ)
    (segNum : ℕ) (mean std : Seg) (posTape negTape : List ℕ) (e : NpError)
    (hlo : 0 ≤ posDesired cfg) (hhi : posDesired cfg ≤ (cfg.n_sample : ℤ))
    (h : sampleOne cfg rois roiIndices b gtRow labelRow segNum mean std posTape negTape =
      Except.error e) :
    e = NpError.invalidGroundTruth := by
  cases hE : (gtRow.take segNum).isEmpty with
  | true =>
    rw [sampleOne_isEmpty_err cfg rois roiIndices b gtRow labelRow segNum mean std
      posTape negTape hE] at h
    simp only [Except.error.injEq] at h
    exact h.symm
  | false =>
    rw [sampleOne_eq_ok cfg rois roiIndices b gtRow labelRow segNum mean std
      posTape negTape hlo hhi hE] at h
    exact absurd h (by simp)

theorem exceptMapList_error {α β : Type} (f : α → Except NpError β) (l : List α)
    (a : α) (ha : a ∈ l) (hae : f a = Except.error NpError.invalidGroundTruth)
    (hall : ∀ x e, f x = Except.error e → e = NpError.invalidGroundTruth) :
    exceptMapList f l = Except.error NpError.invalidGroundTruth := by
  induction l with
  | nil => simp at ha
  | cons x xs ih =>
    simp only [exceptMapList]
    cases hfx : f x with
    | error e =>
      rw [hall x e hfx]
    | ok bx =>
      rcases List.mem_cons.1 ha with rfl | ha'
      · rw [hfx] at hae
        exact absurd hae (by simp)
      · rw [ih ha']

/-- C1: whenever some batch item has zero valid ground-truth regions, the call
raises the invalid-ground-truth error (the numpy ValueError of an argmax over
zero columns, which the spec names `InvalidGroundTruthError`) instead of returning an
assignment, for every configuration whose desired positive count
`round(n_sample·pos_ratio)` lies in `[0, n_sample]`. -/
theorem C1_zero_ground_truth_raises (cfg : ProposalTargetCreator) (rois : List Seg)
    (roiIndices : List ℕ) (gtSegments : List (List Seg)) (labels : List (List ℤ))
    (batchSegInfo : List (ℕ × ℕ)) (mean std : Seg) (tapes : List (List ℕ × List ℕ))
    (b : ℕ)
    (hlo : 0 ≤ posDesired cfg) (hhi : posDesired cfg ≤ (cfg.n_sample : ℤ))
    (hb : b < gtSegments.length)
    (hzero : (batchSegInfo.getD b (0, 0)).2 = 0) :
    proposalTargetCall cfg rois roiIndices gtSegments labels batchSegInfo mean std tapes =
      Except.error NpError.invalidGroundTruth := by
  simp only [proposalTargetCall]
  rw [exceptMapList_error _ _ b (List.mem_range.2 hb) ?hone ?hall]
  case hone =>
    rw [hzero]
    exact sampleOne_isEmpty_err cfg rois roiIndices b _ _ 0 mean std _ _ (by simp)
  case hall =>
    intro x e hx
    exact sampleOne_error_is_invalid cfg rois roiIndices x _ _ _ mean std _ _ e hlo hhi hx

theorem C1_zero_ground_truth_raises_witness :
    proposalTargetCall defaultCreator [] [] [[(0, 1)]] [[1]] [(0, 0)] (0, 0) (1, 1)
      [([], [])] = Except.error NpError.invalidGroundTruth :=
  C1_zero_ground_truth_raises defaultCreator [] [] [[(0, 1)]] [[1]] [(0, 0)] (0, 0) (1, 1)
    [([], [])] 0 (by with_unfolding_all decide) (by with_unfolding_all decide)
    (by decide) (by decide)

/-- C2: every sampled entry of a batch item past the positive-count boundary
(the negative tail of the concatenated positive-then-negative selection) has
its returned label forced to 0, whatever its IoU argmax assignment was. -/
theorem C2_negative_tail_zero (cfg : ProposalTargetCreator) (rois : List Seg)
    (roiIndices : List ℕ) (b : ℕ) (gtRow : List Seg) (labelRow : List ℤ)
    (segNum : ℕ) (mean std : Seg) (posTape negTape : List ℕ) (out : SampleResult)
    (hlo : 0 ≤ posDesired cfg) (hhi : posDesired cfg ≤ (cfg.n_sample : ℤ))
    (h : sampleOne cfg rois roiIndices b gtRow labelRow segNum mean std posTape negTape =
      Except.ok out) :
    ∀ x ∈ out.labels.drop (posBoundary cfg rois roiIndices b gtRow segNum), x = 0 := by
  have hne : (gtRow.take segNum).isEmpty = false := by
    cases hE : (gtRow.take segNum).isEmpty with
    | true =>
      rw [sampleOne_isEmpty_err cfg rois roiIndices b gtRow labelRow segNum mean std
        posTape negTape hE] at h
      exact absurd h (by simp)
    | false => rfl
  rw [sampleOne_eq_ok cfg rois roiIndices b gtRow labelRow segNum mean std
    posTape negTape hlo hhi hne] at h
  simp only [Except.ok.injEq] at h
  subst h
  simp only [sampleResultOf, posBoundary]
  exact pyZeroFrom_drop _ _ (by omega)

theorem C2_negative_tail_zero_witness :
    (0 : ℤ) ∈ (SampleResult.mk [(0, 10), (20, 30)] [0, 0] [(0, 1), (-2, 1)] [3, 0]).labels.drop
      (posBoundary smallCreator [(0, 10), (20, 30)] [0, 0] 0 [(0, 10)] 1) ∧ (0 : ℤ) = 0 :=
  ⟨by with_unfolding_all decide,
   C2_negative_tail_zero smallCreator [(0, 10), (20, 30)] [0, 0] 0 [(0, 10)] [2] 1
    (0, 0) (1, 1) [] [] ⟨[(0, 10), (20, 30)], [0, 0], [(0, 1), (-2, 1)], [3, 0]⟩
    (by with_unfolding_all decide) (by with_unfolding_all decide)
    (by with_unfolding_all rfl) 0 (by with_unfolding_all decide)⟩

/-- C3: per batch item the number of sampled positives is
`min(round(n_sample·pos_ratio), available positives)`, the number of sampled
negatives is `min(n_sample − positives, available negatives)`, and the total
sample count never exceeds `n_sample`. -/
theorem C3_sample_counts (cfg : ProposalTargetCreator) (rois : List Seg)
    (roiIndices : List ℕ) (b : ℕ) (gtRow : List Seg) (labelRow : List ℤ)
    (segNum : ℕ) (mean std : Seg) (posTape negTape : List ℕ) (out : SampleResult)
    (hlo : 0 ≤ posDesired cfg) (hhi : posDesired cfg ≤ (cfg.n_sample : ℤ))
    (h : sampleOne cfg rois roiIndices b gtRow labelRow segNum mean std posTape negTape =
      Except.ok out) :
    out.rois.length =
      min (posDesired cfg).toNat (posAvail cfg rois roiIndices b gtRow segNum) +
        min (cfg.n_sample - min (posDesired cfg).toNat (posAvail cfg rois roiIndices b gtRow segNum))
          (negAvail cfg rois roiIndices b gtRow segNum)
    ∧ posBoundary cfg rois roiIndices b gtRow segNum =
        min (posDesired cfg).toNat (posAvail cfg rois roiIndices b gtRow segNum)
    ∧ out.rois.length ≤ cfg.n_sample
    ∧ out.labels.length = out.rois.length := by
  have hne : (gtRow.take segNum).isEmpty = false := by
    cases hE : (gtRow.take segNum).isEmpty with
    | true =>
      rw [sampleOne_isEmpty_err cfg rois roiIndices b gtRow labelRow segNum mean std
        posTape negTape hE] at h
      exact absurd h (by simp)
    | false => rfl
  rw [sampleOne_eq_ok cfg rois roiIndices b gtRow labelRow segNum mean std
    posTape negTape hlo hhi hne] at h
  simp only [Except.ok.injEq] at h
  subst h
  have hposlen : (sampleWR (min (posDesired cfg)
      ((posIndexList cfg (allRoisOf rois roiIndices b gtRow segNum)
        (gtRow.take segNum)).length : ℤ)).toNat posTape
      (posIndexList cfg (allRoisOf rois roiIndices b gtRow segNum)
        (gtRow.take segNum))).length =
      (min (posDesired cfg)
      ((posIndexList cfg (allRoisOf rois roiIndices b gtRow segNum)
        (gtRow.take segNum)).length : ℤ)).toNat :=
    sampleWR_length _ posTape _ (by omega)
  have hneglen : (sampleWR (min ((cfg.n_sample : ℤ) - min (posDesired cfg)
      ((posIndexList cfg (allRoisOf rois roiIndices b gtRow segNum)
        (gtRow.take segNum)).length : ℤ))
      ((negIndexList cfg (allRoisOf rois roiIndices b gtRow segNum)
        (gtRow.take segNum)).length : ℤ)).toNat negTape
      (negIndexList cfg (allRoisOf rois roiIndices b gtRow segNum)
        (gtRow.take segNum))).length =
      (min ((cfg.n_sample : ℤ) - min (posDesired cfg)
      ((posIndexList cfg (allRoisOf rois roiIndices b gtRow segNum)
        (gtRow.take segNum)).length : ℤ))
      ((negIndexList cfg (allRoisOf rois roiIndices b gtRow segNum)
        (gtRow.take segNum)).length : ℤ)).toNat :=
    sampleWR_length _ negTape _ (by omega)
  simp only [sampleResultOf, posBoundary, posAvail, negAvail, List.length_map,
    List.length_append, pyZeroFrom_length, hposlen, hneglen]
  refine ⟨by omega, by omega, by omega, by trivial⟩

theorem C3_sample_counts_witness :
    (SampleResult.mk [(0, 10), (20, 30)] [0, 0] [(0, 1), (-2, 1)] [3, 0]).rois.length =
      min (posDesired smallCreator).toNat
        (posAvail smallCreator [(0, 10), (20, 30)] [0, 0] 0 [(0, 10)] 1) +
        min (smallCreator.n_sample - min (posDesired smallCreator).toNat
          (posAvail smallCreator [(0, 10), (20, 30)] [0, 0] 0 [(0, 10)] 1))
          (negAvail smallCreator [(0, 10), (20, 30)] [0, 0] 0 [(0, 10)] 1)
    ∧ posBoundary smallCreator [(0, 10), (20, 30)] [0, 0] 0 [(0, 10)] 1 =
        min (posDesired smallCreator).toNat
          (posAvail smallCreator [(0, 10), (20, 30)] [0, 0] 0 [(0, 10)] 1)
    ∧ (SampleResult.mk [(0, 10), (20, 30)] [0, 0] [(0, 1), (-2, 1)] [3, 0]).rois.length ≤
        smallCreator.n_sample
    ∧ (SampleResult.mk [(0, 10), (20, 30)] [0, 0] [(0, 1), (-2, 1)] [3, 0]).labels.length =
        (SampleResult.mk [(0, 10), (20, 30)] [0, 0] [(0, 1), (-2, 1)] [3, 0]).rois.length :=
  C3_sample_counts smallCreator [(0, 10), (20, 30)] [0, 0] 0 [(0, 10)] [2] 1
    (0, 0) (1, 1) [] [] ⟨[(0, 10), (20, 30)], [0, 0], [(0, 1), (-2, 1)], [3, 0]⟩
    (by with_unfolding_all decide) (by with_unfolding_all decide)
    (by with_unfolding_all rfl)

/-- C7: a pool candidate is classified positive exactly when its max IoU over
the valid ground truth is at least `pos_iou_thresh`, negative exactly when that
max IoU lies in `[neg_iou_thresh_lo, neg_iou_thresh_hi)`, and every region in
the sampled output comes from a candidate index satisfying one of the two. -/
theorem C7_iou_classification (cfg : ProposalTargetCreator) (rois : List Seg)
    (roiIndices : List ℕ) (b : ℕ) (gtRow : List Seg) (labelRow : List ℤ)
    (segNum : ℕ) (mean std : Seg) (posTape negTape : List ℕ) (out : SampleResult)
    (hlo : 0 ≤ posDesired cfg) (hhi : posDesired cfg ≤ (cfg.n_sample : ℤ))
    (h : sampleOne cfg rois roiIndices b gtRow labelRow segNum mean std posTape negTape =
      Except.ok out) :
    (∀ i, i ∈ posIndexList cfg (allRoisOf rois roiIndices b gtRow segNum)
        (gtRow.take segNum) ↔
      (i < (allRoisOf rois roiIndices b gtRow segNum).length ∧
        cfg.pos_iou_thresh ≤
          maxIouOf ((allRoisOf rois roiIndices b gtRow segNum).getD i (0, 0))
            (gtRow.take segNum)))
    ∧ (∀ i, i ∈ negIndexList cfg (allRoisOf rois roiIndices b gtRow segNum)
        (gtRow.take segNum) ↔
      (i < (allRoisOf rois roiIndices b gtRow segNum).length ∧
        cfg.neg_iou_thresh_lo ≤
          maxIouOf ((allRoisOf rois roiIndices b gtRow segNum).getD i (0, 0))
            (gtRow.take segNum) ∧
        maxIouOf ((allRoisOf rois roiIndices b gtRow segNum).getD i (0, 0))
          (gtRow.take segNum) < cfg.neg_iou_thresh_hi))
    ∧ (∀ r ∈ out.rois, ∃ i,
        (i ∈ posIndexList cfg (allRoisOf rois roiIndices b gtRow segNum)
            (gtRow.take segNum) ∨
         i ∈ negIndexList cfg (allRoisOf rois roiIndices b gtRow segNum)
            (gtRow.take segNum)) ∧
        r = (allRoisOf rois roiIndices b gtRow segNum).getD i (0, 0)) := by
  refine ⟨?_, ?_, ?_⟩
  · intro i
    simp only [posIndexList, List.mem_filter, List.mem_range, decide_eq_true_eq]
    constructor
    · rintro ⟨hr, hp⟩
      refine ⟨hr, ?_⟩
      rwa [maxIouList, getD_map_lt (fun r => maxIouOf r (gtRow.take segNum)) _ i (0, 0) 0 hr]
        at hp
    · rintro ⟨hr, hp⟩
      refine ⟨hr, ?_⟩
      rwa [maxIouList, getD_map_lt (fun r => maxIouOf r (gtRow.take segNum)) _ i (0, 0) 0 hr]
  · intro i
    simp only [negIndexList, List.mem_filter, List.mem_range, decide_eq_true_eq]
    constructor
    · rintro ⟨hr, hp, hq⟩
      rw [maxIouList, getD_map_lt (fun r => maxIouOf r (gtRow.take segNum)) _ i (0, 0) 0 hr]
        at hp hq
      exact ⟨hr, hq, hp⟩
    · rintro ⟨hr, hp, hq⟩
      refine ⟨hr, ?_⟩
      rw [maxIouList, getD_map_lt (fun r => maxIouOf r (gtRow.take segNum)) _ i (0, 0) 0 hr]
      exact ⟨hq, hp⟩
  · have hne : (gtRow.take segNum).isEmpty = false := by
      cases hE : (gtRow.take segNum).isEmpty with
      | true =>
        rw [sampleOne_isEmpty_err cfg rois roiIndices b gtRow labelRow segNum mean std
          posTape negTape hE] at h
        exact absurd h (by simp)
      | false => rfl
    rw [sampleOne_eq_ok cfg rois roiIndices b gtRow labelRow segNum mean std
      posTape negTape hlo hhi hne] at h
    simp only [Except.ok.injEq] at h
    subst h
    intro r hr
    simp only [sampleResultOf, List.mem_map] at hr
    obtain ⟨i, hik, rfl⟩ := hr
    refine ⟨i, ?_, rfl⟩
    rcases List.mem_append.1 hik with hpos | hneg
    · exact Or.inl (sampleWR_mem _ _ _ i hpos)
    · exact Or.inr (sampleWR_mem _ _ _ i hneg)

theorem C7_iou_classification_witness :
    ∃ i, (i ∈ posIndexList smallCreator
          (allRoisOf [(0, 10), (20, 30)] [0, 0] 0 [(0, 10)] 1)
          (([((0:ℚ), (10:ℚ))] : List Seg).take 1) ∨
        i ∈ negIndexList smallCreator
          (allRoisOf [(0, 10), (20, 30)] [0, 0] 0 [(0, 10)] 1)
          (([((0:ℚ), (10:ℚ))] : List Seg).take 1)) ∧
      ((20, 30) : Seg) =
        (allRoisOf [(0, 10), (20, 30)] [0, 0] 0 [(0, 10)] 1).getD i (0, 0) :=
  (C7_iou_classification smallCreator [(0, 10), (20, 30)] [0, 0] 0 [(0, 10)] [2] 1
    (0, 0) (1, 1) [] [] ⟨[(0, 10), (20, 30)], [0, 0], [(0, 1), (-2, 1)], [3, 0]⟩
    (by with_unfolding_all decide) (by with_unfolding_all decide)
    (by with_unfolding_all rfl)).2.2 (20, 30) (by with_unfolding_all decide)

/-- C8: the candidate pool of a batch item is exactly the input candidates
whose batch-index tag equals that item followed by the first
`valid_count` ground-truth rows of the item, so every valid ground-truth region belongs to
the pool and rows past `valid_count` contribute nothing. -/
theorem C8_candidate_pool (rois : List Seg) (roiIndices : List ℕ) (b : ℕ)
    (gtRow : List Seg) (segNum : ℕ) :
    (∀ r, r ∈ roisOfBatch rois roiIndices b ↔ (r, b) ∈ rois.zip roiIndices)
    ∧ allRoisOf rois roiIndices b gtRow segNum =
        roisOfBatch rois roiIndices b ++ gtRow.take segNum
    ∧ (∀ g, g ∈ gtRow.take segNum → g ∈ allRoisOf rois roiIndices b gtRow segNum)
    ∧ (allRoisOf rois roiIndices b gtRow segNum).length =
        (roisOfBatch rois roiIndices b).length + min segNum gtRow.length := by
  refine ⟨?_, rfl, ?_, ?_⟩
  · intro r
    simp only [roisOfBatch, List.mem_filterMap]
    constructor
    · rintro ⟨p, hp, hif⟩
      by_cases hpb : p.2 = b
      · rw [if_pos hpb] at hif
        simp only [Option.some.injEq] at hif
        have : p = (r, b) := by
          cases p
          simp only at hpb hif
          rw [hpb, hif]
        rwa [this] at hp
      · rw [if_neg hpb] at hif
        exact absurd hif (by simp)
    · intro hrb
      exact ⟨(r, b), hrb, by simp⟩
  · intro g hg
    exact List.mem_append_right _ hg
  · rw [allRoisOf, List.length_append, List.length_take]

theorem C8_candidate_pool_witness :
    ((0:ℚ), (1:ℚ)) ∈ allRoisOf [] [] 0 [((0:ℚ), (1:ℚ))] 1 :=
  (C8_candidate_pool [] [] 0 [((0:ℚ), (1:ℚ))] 1).2.2.1 ((0:ℚ), (1:ℚ)) (by decide)

end AuSpec
